import Mathlib

/-!
# ra-axfr: zone-transfer aggregation and record normalisation

A shallow embedding of `main.go` and a verification of its record normaliser
(`dnsRecordFromRR`), its transfer session (`performAXFR`) and the aggregation
loop of `main`.

Conventions of the embedding.

* A Go `string` is a Lean `String`.  `len` and slicing count characters; the one
  slice the program takes removes a final `.`, a one-byte character, so the
  character count and Go's byte count cut at the same place.
* A Go slice is `Slice α = Option (List α)`: `none` is the `nil` slice, `some l`
  a non-nil slice with elements `l`.
* Unsigned machine integers (`uint8`, `uint16`, `uint32`) are natural numbers;
  the program only prints them, so no wrap-around occurs.  A byte is `Fin 256`.
* A Go `error` value is a `String`; the `error` result of a call is an
  `Option Err` (`none` is the `nil` error).
* A run-time panic is `Option.none` of the enclosing computation.
* The network (`net.LookupNS`, `dns.Transfer.In`) is an oracle that threads an
  explicit world state, so that two calls with equal arguments may answer
  differently.
* The diagnostics written with `fmt.Printf` go to standard output only and do
  not influence the aggregated value; they are left out.
-/

namespace RaAxfr

/-! ## Go slices -/

/-- Go slice values: `none` is the nil slice, `some l` a non-nil slice. -/
abbrev Slice (α : Type) := Option (List α)

/-- Elements of a slice, in order (a nil slice has none). -/
def Slice.toList {α : Type} : Slice α → List α
  | none => []
  | some l => l

/-- Go `append(s, xs...)`: appending nothing to a nil slice leaves it nil. -/
def goAppend {α : Type} (s : Slice α) (xs : List α) : Slice α :=
  match s, xs with
  | none, [] => none
  | none, x :: rest => some (x :: rest)
  | some l, xs => some (l ++ xs)

/-! ## Go strings -/

/-- Go `strings.HasSuffix`. -/
def HasSuffix (s suffix : String) : Bool :=
  suffix.data.isSuffixOf s.data

/-- Go `len(s)`. -/
def goLen (s : String) : Int := s.data.length

/-- Go slice expression `s[:hi]`; `none` is the slice-bounds panic. -/
def sliceTo (s : String) (hi : Int) : Option String :=
  if 0 ≤ hi ∧ hi ≤ goLen s then some ⟨s.data.take hi.toNat⟩ else none

/-- Go `strings.Join`. -/
def Join (elems : List String) (sep : String) : String :=
  sep.intercalate elems

/-- Verb `%d` of `fmt.Sprintf` at an unsigned integer: its decimal digits. -/
def fmtD (n : Nat) : String := toString n

/-! ## The standard library: `net.IP` -/

/-- One octet. -/
abbrev Byte := Fin 256

/-- Go `net.IP`, a byte slice; the nil and the empty slice are both `[]`, which
`IP.String` treats alike. -/
abbrev IP := List Byte

/-- Go `net.isZeros`. -/
def isZeros (p : List Byte) : Bool := p.all (fun b => b.val == 0)

/-- Go `net.IP.To4`: the 4-byte form of an IPv4 or IPv4-mapped address, `none` for nil. -/
def To4 (ip : IP) : Option IP :=
  if ip.length = 4 then some ip
  else if ip.length = 16 ∧ isZeros (ip.take 10) = true ∧ (ip.getD 10 0).val = 255
      ∧ (ip.getD 11 0).val = 255 then
    some ((ip.drop 12).take 4)
  else none

/-- The lower-case hexadecimal digits, Go `hexDigit`. -/
def hexDigit (v : Nat) : Char := "0123456789abcdef".data.getD v '0'

/-- Go `net.appendHex`: hexadecimal digits of `i` without leading zeros. -/
def appendHex (dst : String) (i : Nat) : String :=
  if i = 0 then dst ++ "0"
  else
    [7, 6, 5, 4, 3, 2, 1, 0].foldl
      (fun d j => let v := i >>> (j * 4); if v > 0 then d.push (hexDigit (v % 16)) else d) dst

/-- Go `net.hexString`: two hexadecimal digits for every byte. -/
def hexString (b : List Byte) : String :=
  String.mk (b.flatMap (fun t => [hexDigit (t.val >>> 4), hexDigit (t.val % 16)]))

/-- The 16-bit group at byte offset `i`: `uint32(ip[i])<<8 | uint32(ip[i+1])`. -/
def group (ip : IP) (i : Nat) : Nat := (ip.getD i 0).val * 256 + (ip.getD (i + 1) 0).val

/-- Inner scan of `IP.String`: advance `j` over all-zero groups. -/
def zeroRunEnd (ip : IP) : Nat → Nat → Nat
  | 0, j => j
  | fuel + 1, j =>
    if j < 16 ∧ (ip.getD j 0).val = 0 ∧ (ip.getD (j + 1) 0).val = 0 then
      zeroRunEnd ip fuel (j + 2)
    else j

/-- First loop of `IP.String`: the longest run of zero groups as `(e0, e1)`. -/
def longestZeroRun (ip : IP) : Nat → Nat → Int → Int → Int × Int
  | 0, _, e0, e1 => (e0, e1)
  | fuel + 1, i, e0, e1 =>
    if i < 16 then
      let j := zeroRunEnd ip 8 i
      if j > i ∧ (j : Int) - (i : Int) > e1 - e0 then
        longestZeroRun ip fuel (j + 2) i j
      else longestZeroRun ip fuel (i + 2) e0 e1
    else (e0, e1)

/-- Second loop of `IP.String`: write the groups, with `::` in place of the run. -/
def writeGroups (ip : IP) (e0 e1 : Int) : Nat → Nat → String → String
  | 0, _, b => b
  | fuel + 1, i, b =>
    if i < 16 then
      if (i : Int) = e0 then
        let b1 := b ++ "::"
        let i1 := e1.toNat
        if i1 ≥ 16 then b1
        else writeGroups ip e0 e1 fuel (i1 + 2) (appendHex b1 (group ip i1))
      else
        let b1 := if i > 0 then b ++ ":" else b
        writeGroups ip e0 e1 fuel (i + 2) (appendHex b1 (group ip i))
    else b

/-- Go `net.IP.String`: `<nil>` for the empty slice, dotted decimal for an IPv4
or IPv4-mapped address, the colon form for any other 16-byte address, `?` and
the bytes in hexadecimal otherwise.  The two loops run at most eight times;
`zeroRunEnd_fuel`, `longestZeroRun_fuel` and `writeGroups_fuel` show that their
fuel is never used up. -/
def IP.String (ip : IP) : String :=
  if ip.length = 0 then "<nil>"
  else
    match To4 ip with
    | some p4 => ".".intercalate (p4.map (fun b => fmtD b.val))
    | none =>
      if ip.length ≠ 16 then "?" ++ hexString ip
      else
        let e := longestZeroRun ip 9 0 (-1) (-1)
        let e := if e.2 - e.1 ≤ 2 then ((-1 : Int), (-1 : Int)) else e
        writeGroups ip e.1 e.2 9 0 ""

/-! ## The DNS library: resource records -/

/-- Library `dns.RR_Header`. -/
structure RR_Header where
  Name : String
  Rrtype : Nat
  Class : Nat
  Ttl : Nat
  Rdlength : Nat
  deriving DecidableEq, Repr

/-- Library interface `dns.RR`, by dynamic type: the nine record types that
`dnsRecordFromRR` names, and `other` for every further implementation, which
carries what its `String()` method returns. -/
inductive RR where
  | A (Hdr : RR_Header) (A : IP)
  | AAAA (Hdr : RR_Header) (AAAA : IP)
  | CNAME (Hdr : RR_Header) (Target : String)
  | MX (Hdr : RR_Header) (Preference : Nat) (Mx : String)
  | NS (Hdr : RR_Header) (Ns : String)
  | PTR (Hdr : RR_Header) (Ptr : String)
  | SOA (Hdr : RR_Header) (Ns Mbox : String) (Serial Refresh Retry Expire Minttl : Nat)
  | SRV (Hdr : RR_Header) (Priority Weight Port : Nat) (Target : String)
  | TXT (Hdr : RR_Header) (Txt : List String)
  | other (Hdr : RR_Header) (presentation : String)
  deriving DecidableEq, Repr

/-- Library method `RR.Header`. -/
def RR.Header : RR → RR_Header
  | .A h _ => h
  | .AAAA h _ => h
  | .CNAME h _ => h
  | .MX h _ _ => h
  | .NS h _ => h
  | .PTR h _ => h
  | .SOA h _ _ _ _ _ _ _ => h
  | .SRV h _ _ _ _ => h
  | .TXT h _ => h
  | .other h _ => h

/-- Go map index expression `m[k]` at a string-valued map: the zero value `""`
when the key is absent. -/
def mapIndex (m : List (Nat × String)) (k : Nat) : String :=
  (m.lookup k).getD ""

/-- Library table `dns.TypeToString` of github.com/miekg/dns, release v1.1.73
(type code to mnemonic): the record types the library knows.  The codes 65280 to
65534, kept for private use, have no entry. -/
def TypeToString : List (Nat × String) :=
  [(0, "None"), (1, "A"), (2, "NS"), (3, "MD"), (4, "MF"), (5, "CNAME"), (6, "SOA"),
   (7, "MB"), (8, "MG"), (9, "MR"), (10, "NULL"), (12, "PTR"), (13, "HINFO"),
   (14, "MINFO"), (15, "MX"), (16, "TXT"), (17, "RP"), (18, "AFSDB"), (19, "X25"),
   (20, "ISDN"), (21, "RT"), (23, "NSAP-PTR"), (24, "SIG"), (25, "KEY"), (26, "PX"),
   (27, "GPOS"), (28, "AAAA"), (29, "LOC"), (30, "NXT"), (31, "EID"), (32, "NIMLOC"),
   (33, "SRV"), (34, "ATMA"), (35, "NAPTR"), (36, "KX"), (37, "CERT"), (39, "DNAME"),
   (41, "OPT"), (42, "APL"), (43, "DS"), (44, "SSHFP"), (45, "IPSECKEY"), (46, "RRSIG"),
   (47, "NSEC"), (48, "DNSKEY"), (49, "DHCID"), (50, "NSEC3"), (51, "NSEC3PARAM"),
   (52, "TLSA"), (53, "SMIMEA"), (55, "HIP"), (56, "NINFO"), (57, "RKEY"),
   (58, "TALINK"), (59, "CDS"), (60, "CDNSKEY"), (61, "OPENPGPKEY"), (62, "CSYNC"),
   (63, "ZONEMD"), (64, "SVCB"), (65, "HTTPS"), (99, "SPF"), (100, "UINFO"),
   (101, "UID"), (102, "GID"), (103, "UNSPEC"), (104, "NID"), (105, "L32"),
   (106, "L64"), (107, "LP"), (108, "EUI48"), (109, "EUI64"), (128, "NXNAME"),
   (249, "TKEY"), (250, "TSIG"), (251, "IXFR"), (252, "AXFR"), (253, "MAILB"),
   (254, "MAILA"), (255, "ANY"), (256, "URI"), (257, "CAA"), (258, "AVC"),
   (260, "AMTRELAY"), (261, "RESINFO"), (32768, "TA"), (32769, "DLV"),
   (65535, "Reserved")]

/-! ## `main.go`: the record model and the normaliser -/

/-- Go `DNSRecord` of `main.go` (field `Type` is spelled `Type_`, `Type` being reserved). -/
structure DNSRecord where
  Name : String
  Type_ : String
  Value : String
  deriving DecidableEq, Repr

/-- Go `Result` of `main.go`. -/
structure Result where
  Domain : String
  Nameservers : Slice String
  Results : Slice DNSRecord
  deriving DecidableEq, Repr

/-- Go `dnsRecordFromRR` of `main.go`; `tts` is the table `dns.TypeToString`. -/
def dnsRecordFromRR (tts : List (Nat × String)) (rr : RR) : DNSRecord :=
  let header := rr.Header
  let record : DNSRecord := ⟨header.Name, mapIndex tts header.Rrtype, ""⟩
  match rr with
  | .A _ a => { record with Value := IP.String a }
  | .AAAA _ a => { record with Value := IP.String a }
  | .CNAME _ target => { record with Value := target }
  | .MX _ preference mx => { record with Value := fmtD preference ++ " " ++ mx }
  | .NS _ ns => { record with Value := ns }
  | .PTR _ ptr => { record with Value := ptr }
  | .SOA _ ns mbox serial refresh retry expire minttl =>
    { record with Value := ns ++ " " ++ mbox ++ " " ++ fmtD serial ++ " " ++ fmtD refresh
        ++ " " ++ fmtD retry ++ " " ++ fmtD expire ++ " " ++ fmtD minttl }
  | .SRV _ priority weight port target =>
    { record with Value := fmtD priority ++ " " ++ fmtD weight ++ " " ++ fmtD port
        ++ " " ++ target }
  | .TXT _ txt => { record with Value := Join txt " " }
  | .other _ presentation => { record with Value := presentation }

/-! ## The network -/

/-- Go `error` values. -/
abbrev Err := String

/-- Go `net.NS`. -/
structure NS where
  Host : String
  deriving DecidableEq, Repr

/-- Library `dns.Envelope`: one message of a transfer, or the error that ended it. -/
structure Envelope where
  RR : List RR
  Error : Option Err
  deriving DecidableEq, Repr

/-- Library `dns.Question`. -/
structure Question where
  Name : String
  Qtype : Nat
  Qclass : Nat
  deriving DecidableEq, Repr

/-- Library `dns.Msg`, as far as `SetAxfr` fills it. -/
structure Msg where
  Question : List Question
  deriving DecidableEq, Repr

/-- Library `(*dns.Msg).SetAxfr`: one question of type AXFR (252), class IN (1). -/
def SetAxfr (z : String) : Msg := ⟨[⟨z, 252, 1⟩]⟩

/-- What the program calls outside `main.go`, over a world state `W`:
`net.LookupNS`, `(*dns.Transfer).In` (the envelopes its channel delivers until it
is closed, and its error), `dns.Fqdn` and the table `dns.TypeToString`. -/
structure Env (W : Type) where
  LookupNS : String → W → (List NS × Option Err) × W
  In : Msg → String → W → (List Envelope × Option Err) × W
  Fqdn : String → String
  TypeToString : List (Nat × String)

/-! ## `main.go`: resolution, transfer, aggregation -/

/-- Go `getNameservers` of `main.go`. -/
def getNameservers {W : Type} (env : Env W) (domain : String) (w : W) :
    (Slice String × Option Err) × W :=
  match env.LookupNS domain w with
  | ((_, some err), w1) => ((none, some err), w1)
  | ((nameservers, none), w1) =>
    ((nameservers.foldl (fun nsList ns => goAppend nsList [ns.Host]) none, none), w1)

/-- Lines 48-55 of `performAXFR`: the address handed to `transfer.In`; `none` is
the panic of an out-of-range slice. -/
def connTarget (ns : String) : Option String :=
  let nameserver := if !HasSuffix ns "." then ns ++ "." else ns
  match sliceTo nameserver (goLen nameserver - 1) with
  | none => none
  | some nameserver => some (nameserver ++ ":53")

/-- Lines 60-68 of `performAXFR`: the loop over the envelopes of the channel. -/
def recvLoop (tts : List (Nat × String)) :
    List Envelope → Slice DNSRecord → Slice DNSRecord × Option Err
  | [], records => (records, none)
  | r :: rest, records =>
    match r.Error with
    | some e => (none, some e)
    | none =>
      recvLoop tts rest
        (r.RR.foldl (fun recs rr => goAppend recs [dnsRecordFromRR tts rr]) records)

/-- Go `performAXFR` of `main.go`. -/
def performAXFR {W : Type} (env : Env W) (domain ns : String) (w : W) :
    Option ((Slice DNSRecord × Option Err) × W) :=
  let m := SetAxfr (env.Fqdn domain)
  match connTarget ns with
  | none => none
  | some addr =>
    match env.In m addr w with
    | ((_, some err), w1) => some ((none, some err), w1)
    | ((conn, none), w1) => some (recvLoop env.TypeToString conn none, w1)

/-- Body of the loop over the nameservers in `main` (lines 161-168). -/
def transferStep {W : Type} (env : Env W) (domain ns : String) (result : Result) (w : W) :
    Option (Result × W) :=
  match performAXFR env domain ns w with
  | none => none
  | some ((_, some _), w1) => some (result, w1)
  | some ((records, none), w1) =>
    some ({ result with Results := goAppend result.Results records.toList }, w1)

/-- Loop over the nameservers in `main` (lines 161-168). -/
def transferLoop {W : Type} (env : Env W) (domain : String) :
    List String → Result → W → Option (Result × W)
  | [], result, w => some (result, w)
  | ns :: rest, result, w =>
    match transferStep env domain ns result w with
    | none => none
    | some (result1, w1) => transferLoop env domain rest result1 w1

/-- Body of the loop over the domains in `main` (lines 149-171). -/
def domainStep {W : Type} (env : Env W) (domain : String) (results : Slice Result) (w : W) :
    Option (Slice Result × W) :=
  match getNameservers env domain w with
  | ((_, some _), w1) => some (results, w1)
  | ((nameservers, none), w1) =>
    match transferLoop env domain nameservers.toList ⟨domain, nameservers, none⟩ w1 with
    | none => none
    | some (result, w2) => some (goAppend results [result], w2)

/-- Loop over the domains in `main` (lines 149-171). -/
def domainLoop {W : Type} (env : Env W) :
    List String → Slice Result → W → Option (Slice Result × W)
  | [], results, w => some (results, w)
  | domain :: rest, results, w =>
    match domainStep env domain results w with
    | none => none
    | some (results1, w1) => domainLoop env rest results1 w1

/-- Lines 147-171 of `main`: `results` starts as an empty slice that is not nil,
then the loop runs. -/
def aggregate {W : Type} (env : Env W) (domains : List String) (w : W) :
    Option (Slice Result × W) :=
  domainLoop env domains (some []) w

/-! ## The standard library: `encoding/json` -/

/-- JSON values, the output of `json.Marshal` before it is written as text. -/
inductive JSON where
  | null
  | str (s : String)
  | arr (elems : List JSON)
  | obj (fields : List (String × JSON))

/-- Go `json.Marshal` at a slice: a nil slice encodes as `null`, any other as an array. -/
def marshalSlice {α : Type} (f : α → JSON) : Slice α → JSON
  | none => .null
  | some l => .arr (l.map f)

/-- Go `json.Marshal` at a `DNSRecord`, by its field tags. -/
def marshalDNSRecord (r : DNSRecord) : JSON :=
  .obj [("name", .str r.Name), ("type", .str r.Type_), ("value", .str r.Value)]

/-- Go `json.Marshal` at a `Result`, by its field tags. -/
def marshalResult (r : Result) : JSON :=
  .obj [("domain", .str r.Domain), ("nameservers", marshalSlice .str r.Nameservers),
    ("results", marshalSlice marshalDNSRecord r.Results)]

/-- Go `json.Marshal(results)` of line 174. -/
def Marshal (results : Slice Result) : JSON := marshalSlice marshalResult results

/-- Lines 147-179 of `main` in JSON mode: the value that is printed. -/
def mainJSON {W : Type} (env : Env W) (domains : List String) (w : W) : Option JSON :=
  match aggregate env domains w with
  | none => none
  | some (results, _) => some (Marshal results)

/-! ## Traces of a run -/

/-- The transfers of one domain, in the order they are made: each nameserver with
what `performAXFR` returned for it. -/
def transferTrace {W : Type} (env : Env W) (domain : String) :
    List String → W → List (String × (Slice DNSRecord × Option Err))
  | [], _ => []
  | ns :: rest, w =>
    match performAXFR env domain ns w with
    | none => []
    | some (out, w1) => (ns, out) :: transferTrace env domain rest w1

/-- The lookups of a run, in the order they are made: each input domain with what
`net.LookupNS` returned for it. -/
def lookupTrace {W : Type} (env : Env W) :
    List String → W → List (String × (List NS × Option Err))
  | [], _ => []
  | domain :: rest, w =>
    (domain, (env.LookupNS domain w).1) ::
      match domainStep env domain none w with
      | none => []
      | some (_, w1) => lookupTrace env rest w1

/-- The records one transfer contributes: those it returned when it succeeded. -/
def block (out : Slice DNSRecord × Option Err) : List DNSRecord :=
  match out.2 with
  | none => out.1.toList
  | some _ => []

/-- The record blocks of the transfers of one domain, in nameserver order: one
block for every transfer, empty when the transfer failed. -/
def blocks {W : Type} (env : Env W) (domain : String) (nss : List String) (w : W) :
    List (List DNSRecord) :=
  (transferTrace env domain nss w).map (fun t => block t.2)

/-- The entry that one iteration of the loop over the domains appends for a
domain whose lookup returned `nss` without error, the transfers starting in
world `w1`. -/
def entryOf {W : Type} (env : Env W) (domain : String) (nss : List NS) (w1 : W) : Result :=
  ⟨domain, goAppend none (nss.map NS.Host),
    goAppend none (blocks env domain (nss.map NS.Host) w1).flatten⟩

/-- The records a single transfer to `ns`, made in world `w`, contributes. -/
def transferBlock {W : Type} (env : Env W) (domain ns : String) (w : W) : List DNSRecord :=
  match performAXFR env domain ns w with
  | none => []
  | some (out, _) => block out

/-! ## Reference rendering of an IPv6 address -/

/-- The 16-bit groups of an address: its bytes taken in pairs, high byte first. -/
def groupsOf : List Byte → List Nat
  | b0 :: b1 :: rest => (b0.val * 256 + b1.val) :: groupsOf rest
  | _ => []

/-- Lower-case hexadecimal digits of a number, without leading zeros. -/
def hex16 (g : Nat) : String := String.mk (Nat.toDigits 16 g)

/-- Length of the run of zero groups that starts at position `s`. -/
def runLen (gs : List Nat) (s : Nat) : Nat :=
  ((gs.drop s).takeWhile (fun g => g == 0)).length

/-- The leftmost longest run of at least two zero groups, as (start, length);
length 0 when there is no such run. -/
def zeroRun (gs : List Nat) : Nat × Nat :=
  let best := (List.range gs.length).foldl
    (fun best s => if runLen gs s > best.2 then (s, runLen gs s) else best) (0, 0)
  if best.2 ≥ 2 then best else (0, 0)

/-- Colon form of an IPv6 address given by its groups: the groups in
hexadecimal separated by `:`, the leftmost longest run of at least two zero
groups written as `::`. -/
def colonForm (gs : List Nat) : String :=
  if (zeroRun gs).2 = 0 then ":".intercalate (gs.map hex16)
  else
    ":".intercalate ((gs.take (zeroRun gs).1).map hex16) ++ "::"
      ++ ":".intercalate ((gs.drop ((zeroRun gs).1 + (zeroRun gs).2)).map hex16)

/-- Encoding of a run (start, length) as the byte offsets `(e0, e1)` of `IP.String`. -/
def encRun (r : Nat × Nat) : Int × Int :=
  if r.2 = 0 then (-1, -1) else ((2 * r.1 : Nat), (2 * (r.1 + r.2) : Nat))

/-- The address with the same zero groups whose other groups are all 1. -/
def canonIP (zs : List Bool) : IP := zs.flatMap (fun z => [0, if z then 0 else 1])

/-- The groups of `canonIP zs`. -/
def canonGroups (zs : List Bool) : List Nat := zs.map (fun z => if z then 0 else 1)

/-- The record `example.com. SOA`, which opens and closes the zone. -/
def exampleSOA : RR :=
  .SOA ⟨"example.com.", 6, 1, 3600, 54⟩ "ns1.example.com." "hostmaster.example.com."
    2024010101 7200 3600 1209600 300

/-- The record `www.example.com. A 93.184.216.34`. -/
def exampleA : RR := .A ⟨"www.example.com.", 1, 1, 300, 4⟩ [93, 184, 216, 34]

/-- The record `example.org. SOA`. -/
def exampleOrgSOA : RR :=
  .SOA ⟨"example.org.", 6, 1, 3600, 54⟩ "ns3.example.org." "hostmaster.example.org."
    2024010101 7200 3600 1209600 300

/-- The record `www.example.org. A 192.0.2.80`. -/
def exampleOrgA : RR := .A ⟨"www.example.org.", 1, 1, 300, 4⟩ [192, 0, 2, 80]

/-- A stateless network.  `example.com` has the nameservers `ns1` and `ns2`,
`example.org` has `ns3`, every other lookup fails.  `ns1` serves its zone in one
message (SOA, one A record, SOA); `ns2` answers with the code REFUSED; `ns3`
sends a first message (SOA and one A record) and the connection then times out;
every other server cannot be reached. -/
def exampleEnv : Env Unit where
  LookupNS := fun domain w =>
    if domain = "example.com" then
      (([⟨"ns1.example.com."⟩, ⟨"ns2.example.com."⟩], none), w)
    else if domain = "example.org" then (([⟨"ns3.example.org."⟩], none), w)
    else (([], some "no such host"), w)
  In := fun _ addr w =>
    if addr = "ns1.example.com:53" then
      (([⟨[exampleSOA, exampleA, exampleSOA], none⟩], none), w)
    else if addr = "ns2.example.com:53" then (([⟨[], some "dns: bad xfr rcode: 5"⟩], none), w)
    else if addr = "ns3.example.org:53" then
      (([⟨[exampleOrgSOA, exampleOrgA], none⟩, ⟨[], some "i/o timeout"⟩], none), w)
    else (([], some "connection refused"), w)
  Fqdn := fun s => if HasSuffix s "." then s else s ++ "."
  TypeToString := TypeToString

/-! # Verification -/

/-! ## Slices and strings: basic facts -/

theorem toList_goAppend {α : Type} (s : Slice α) (xs : List α) :
    (goAppend s xs).toList = s.toList ++ xs := by
  cases s <;> cases xs <;> simp [goAppend, Slice.toList]

theorem toList_foldl_goAppend {α β : Type} (f : α → β) (l : List α) (s : Slice β) :
    (l.foldl (fun acc x => goAppend acc [f x]) s).toList = s.toList ++ l.map f := by
  induction l generalizing s with
  | nil => simp
  | cons x xs ih => simp [ih, toList_goAppend]

theorem hasSuffix_dot_iff (s : String) :
    HasSuffix s "." = true ↔ ∃ host : String, s = host ++ "." := by
  unfold HasSuffix
  rw [List.isSuffixOf_iff_suffix]
  constructor
  · rintro ⟨t, ht⟩
    exact ⟨⟨t⟩, String.ext (by simpa using ht.symm)⟩
  · rintro ⟨host, rfl⟩
    exact ⟨host.data, by simp⟩

theorem sliceTo_append_dot (host : String) :
    sliceTo (host ++ ".") (goLen (host ++ ".") - 1) = some host := by
  have hlen : goLen (host ++ ".") - 1 = (host.data.length : Int) := by
    simp [goLen]
  rw [hlen]
  unfold sliceTo
  rw [if_pos]
  · congr 1
    apply String.ext
    simp
  · constructor
    · exact Int.ofNat_nonneg _
    · simp [goLen]

theorem connTarget_of_dot (host : String) : connTarget (host ++ ".") = some (host ++ ":53") := by
  have h : HasSuffix (host ++ ".") "." = true := (hasSuffix_dot_iff _).2 ⟨host, rfl⟩
  simp [connTarget, h, sliceTo_append_dot]

theorem connTarget_of_no_dot (ns : String) (h : HasSuffix ns "." = false) :
    connTarget ns = some (ns ++ ":53") := by
  simp [connTarget, h, sliceTo_append_dot]

theorem connTarget_isSome (ns : String) : ∃ addr, connTarget ns = some addr := by
  cases h : HasSuffix ns "."
  · exact ⟨_, connTarget_of_no_dot ns h⟩
  · obtain ⟨host, rfl⟩ := (hasSuffix_dot_iff ns).1 h
    exact ⟨_, connTarget_of_dot host⟩

theorem string_append_right_cancel (a b c : String) (h : a ++ c = b ++ c) : a = b := by
  apply String.ext
  have := congrArg String.data h
  simpa using this

/-! ## The connection target (C9) -/

/-- C9: for every nameserver string `ns`, the empty one included, the slice of
`performAXFR` stays in range (the target is computed, never a panic) and the
target is `host ++ ":53"`, where `host` is `ns` without its final dot when `ns`
ends with `.` and `ns` itself otherwise.  Hence, when `ns` does not end with
`.`, both `ns` and `ns ++ "."` give the target `ns ++ ":53"`, whose host part
does not end with a dot. -/
theorem connTarget_strips_root_label (ns : String) :
    connTarget ns ≠ none
    ∧ (HasSuffix ns "." = true → ∃ host, ns = host ++ "." ∧ connTarget ns = some (host ++ ":53"))
    ∧ (HasSuffix ns "." = false →
        connTarget ns = some (ns ++ ":53") ∧ connTarget (ns ++ ".") = some (ns ++ ":53")
        ∧ ∀ host, connTarget ns = some (host ++ ":53") → HasSuffix host "." = false) := by
  refine ⟨?_, ?_, ?_⟩
  · obtain ⟨addr, h⟩ := connTarget_isSome ns
    simp [h]
  · intro h
    obtain ⟨host, rfl⟩ := (hasSuffix_dot_iff ns).1 h
    exact ⟨host, rfl, connTarget_of_dot host⟩
  · intro h
    refine ⟨connTarget_of_no_dot ns h, connTarget_of_dot ns, ?_⟩
    intro host hh
    rw [connTarget_of_no_dot ns h] at hh
    have : host = ns := (string_append_right_cancel ns host ":53" (Option.some.inj hh)).symm
    rw [this]; exact h

/-- C9 at `ns1.example.com`, with and without the root label, and at the empty name. -/
theorem connTarget_strips_root_label_witness :
    HasSuffix "ns1.example.com" "." = false
    ∧ connTarget "ns1.example.com" = some "ns1.example.com:53"
    ∧ connTarget "ns1.example.com." = some "ns1.example.com:53"
    ∧ HasSuffix "" "." = false
    ∧ connTarget "" = some ":53" :=
  ⟨by decide,
   ((connTarget_strips_root_label "ns1.example.com").2.2 (by decide)).1,
   ((connTarget_strips_root_label "ns1.example.com").2.2 (by decide)).2.1,
   by decide,
   ((connTarget_strips_root_label "").2.2 (by decide)).1⟩

/-! ## The transfer session (C3) -/

theorem recvLoop_of_findSome {tts : List (Nat × String)} {e : Err} (conn : List Envelope)
    (records : Slice DNSRecord) (h : conn.findSome? Envelope.Error = some e) :
    recvLoop tts conn records = (none, some e) := by
  induction conn generalizing records with
  | nil => simp at h
  | cons r rest ih =>
    cases hr : r.Error with
    | some e1 =>
      simp [List.findSome?, hr] at h
      simp [recvLoop, hr, h]
    | none =>
      simp [List.findSome?, hr] at h
      simp [recvLoop, hr, ih _ h]

theorem recvLoop_of_no_error (tts : List (Nat × String)) (conn : List Envelope)
    (records : Slice DNSRecord) (h : conn.findSome? Envelope.Error = none) :
    (recvLoop tts conn records).2 = none
    ∧ (recvLoop tts conn records).1.toList
        = records.toList ++ conn.flatMap (fun r => r.RR.map (dnsRecordFromRR tts)) := by
  induction conn generalizing records with
  | nil => simp [recvLoop]
  | cons r rest ih =>
    cases hr : r.Error with
    | some e1 => simp [List.findSome?, hr] at h
    | none =>
      have h1 : rest.findSome? Envelope.Error = none := by
        simpa [List.findSome?, hr] using h
      have := ih (r.RR.foldl (fun recs rr => goAppend recs [dnsRecordFromRR tts rr]) records) h1
      simp [recvLoop, hr, this, toList_foldl_goAppend]

theorem performAXFR_eq {W : Type} (env : Env W) (domain ns : String) (w : W) :
    ∃ addr, connTarget ns = some addr ∧
      performAXFR env domain ns w =
        some (match env.In (SetAxfr (env.Fqdn domain)) addr w with
          | ((_, some err), w1) => ((none, some err), w1)
          | ((conn, none), w1) => (recvLoop env.TypeToString conn none, w1)) := by
  obtain ⟨addr, h⟩ := connTarget_isSome ns
  refine ⟨addr, h, ?_⟩
  simp only [performAXFR, h]
  split <;> simp_all

/-- C3: `performAXFR` is all-or-nothing for a nameserver.  When the channel
opened by `transfer.In` delivers the finite stream `conn`: if some envelope
carries an error then the call returns the first such error and the nil record
slice, whatever records the earlier envelopes carried; if none does, it returns
the nil error and exactly the normalised records of all envelopes, in envelope
order and in record order inside each envelope. -/
theorem performAXFR_all_or_nothing {W : Type} (env : Env W) (domain ns : String) (w w1 : W)
    (addr : String) (conn : List Envelope)
    (haddr : connTarget ns = some addr)
    (hin : env.In (SetAxfr (env.Fqdn domain)) addr w = ((conn, none), w1)) :
    (∀ e, conn.findSome? Envelope.Error = some e →
        performAXFR env domain ns w = some ((none, some e), w1))
    ∧ (conn.findSome? Envelope.Error = none →
        ∃ records, performAXFR env domain ns w = some ((records, none), w1)
          ∧ records.toList
              = conn.flatMap (fun r => r.RR.map (dnsRecordFromRR env.TypeToString))) := by
  have hp : performAXFR env domain ns w = some (recvLoop env.TypeToString conn none, w1) := by
    simp [performAXFR, haddr, hin]
  constructor
  · intro e he
    rw [hp, recvLoop_of_findSome conn none he]
  · intro hnone
    obtain ⟨h1, h2⟩ := recvLoop_of_no_error env.TypeToString conn none hnone
    refine ⟨(recvLoop env.TypeToString conn none).1, ?_, ?_⟩
    · rw [hp, ← h1]
    · simpa [Slice.toList] using h2

/-- C3 on the example network: `ns3` sends a message with two records and then
an error, and the call returns that error and no record; `ns1` sends one message
without error, and the call returns its three records in order. -/
theorem performAXFR_all_or_nothing_witness :
    performAXFR exampleEnv "example.org" "ns3.example.org." ()
        = some ((none, some "i/o timeout"), ())
    ∧ ∃ records, performAXFR exampleEnv "example.com" "ns1.example.com." ()
          = some ((records, none), ())
        ∧ records.toList
            = [⟨"example.com.", "SOA",
                "ns1.example.com. hostmaster.example.com. 2024010101 7200 3600 1209600 300"⟩,
               ⟨"www.example.com.", "A", "93.184.216.34"⟩,
               ⟨"example.com.", "SOA",
                "ns1.example.com. hostmaster.example.com. 2024010101 7200 3600 1209600 300"⟩] :=
  ⟨(performAXFR_all_or_nothing exampleEnv "example.org" "ns3.example.org." () ()
      "ns3.example.org:53"
      [⟨[exampleOrgSOA, exampleOrgA], none⟩, ⟨[], some "i/o timeout"⟩]
      (by decide) (by decide)).1 "i/o timeout" (by decide),
   (performAXFR_all_or_nothing exampleEnv "example.com" "ns1.example.com." () ()
      "ns1.example.com:53" [⟨[exampleSOA, exampleA, exampleSOA], none⟩]
      (by decide) (by decide)).2 (by decide)⟩

/-! ## The normaliser (C5, C6, C10) -/

theorem digitChar_isDigit (k : Nat) (h : k < 10) : (Nat.digitChar k).isDigit = true := by
  interval_cases k <;> decide

theorem toDigitsCore_isDigit (fuel n : Nat) (ds : List Char)
    (hds : ∀ c ∈ ds, c.isDigit = true) :
    ∀ c ∈ Nat.toDigitsCore 10 fuel n ds, c.isDigit = true := by
  induction fuel generalizing n ds with
  | zero => simpa [Nat.toDigitsCore] using hds
  | succ fuel ih =>
    have hd : (Nat.digitChar (n % 10)).isDigit = true :=
      digitChar_isDigit _ (Nat.mod_lt _ (by decide))
    have hcons : ∀ c ∈ Nat.digitChar (n % 10) :: ds, c.isDigit = true := by
      intro c hc
      rcases List.mem_cons.1 hc with rfl | hc
      · exact hd
      · exact hds c hc
    by_cases hn : n / 10 = 0
    · simpa [Nat.toDigitsCore, hn] using hcons
    · simpa [Nat.toDigitsCore, hn] using ih (n / 10) _ hcons

theorem toDigits_isDigit (n : Nat) : ∀ c ∈ Nat.toDigits 10 n, c.isDigit = true :=
  toDigitsCore_isDigit _ _ [] (by simp)

theorem space_not_mem_toDigits (n : Nat) : ' ' ∉ Nat.toDigits 10 n := by
  intro h
  have := toDigits_isDigit n _ h
  exact absurd this (by decide)

theorem fmtD_data (n : Nat) : (fmtD n).data = Nat.toDigits 10 n := rfl

theorem intercalate_go_data (acc sep : String) (l : List String) :
    (String.intercalate.go acc sep l).data
      = acc.data ++ l.flatMap (fun a => sep.data ++ a.data) := by
  induction l generalizing acc with
  | nil => simp [String.intercalate.go]
  | cons a as ih => simp [String.intercalate.go, ih]

theorem intercalate_data (sep : String) (l : List String) :
    (sep.intercalate l).data = sep.data.intercalate (l.map String.data) := by
  cases l with
  | nil => simp [String.intercalate, List.intercalate]
  | cons a as =>
    simp only [String.intercalate, intercalate_go_data, List.intercalate, List.map_cons]
    induction as generalizing a with
    | nil => simp
    | cons b bs ih =>
      have := ih b
      simp [List.intersperse] at this ⊢
      exact this

/-- C5: the value `dnsRecordFromRR` gives to a CNAME, NS, PTR, MX, SRV or TXT
record.  CNAME, NS and PTR: the target hostname itself.  MX: the decimal digits
of the preference, one space, the exchange.  SRV: the decimal digits of
priority, weight and port and then the target, one space between neighbours.
TXT: the chunks with one space between neighbours, the empty string for no
chunk. -/
theorem dnsRecordFromRR_value_table (tts : List (Nat × String)) (h : RR_Header) :
    (∀ target, (dnsRecordFromRR tts (.CNAME h target)).Value = target)
    ∧ (∀ ns, (dnsRecordFromRR tts (.NS h ns)).Value = ns)
    ∧ (∀ ptr, (dnsRecordFromRR tts (.PTR h ptr)).Value = ptr)
    ∧ (∀ preference mx, (dnsRecordFromRR tts (.MX h preference mx)).Value
        = String.mk (Nat.toDigits 10 preference) ++ " " ++ mx)
    ∧ (∀ priority weight port target,
        (dnsRecordFromRR tts (.SRV h priority weight port target)).Value
          = String.mk (Nat.toDigits 10 priority) ++ " " ++ String.mk (Nat.toDigits 10 weight)
              ++ " " ++ String.mk (Nat.toDigits 10 port) ++ " " ++ target)
    ∧ (∀ txt, (dnsRecordFromRR tts (.TXT h txt)).Value.data
        = [' '].intercalate (txt.map String.data))
    ∧ (dnsRecordFromRR tts (.TXT h [])).Value = ""
    ∧ (dnsRecordFromRR tts (.MX h 10 "mail.example.com.")).Value = "10 mail.example.com." := by
  refine ⟨fun _ => rfl, fun _ => rfl, fun _ => rfl, fun _ _ => rfl, fun _ _ _ _ => rfl, ?_,
    rfl, rfl⟩
  intro txt
  exact intercalate_data " " txt

theorem soa_value_data (tts : List (Nat × String)) (h : RR_Header) (ns mbox : String)
    (serial refresh retry expire minttl : Nat) :
    (dnsRecordFromRR tts (.SOA h ns mbox serial refresh retry expire minttl)).Value.data
      = [' '].intercalate [ns.data, mbox.data, Nat.toDigits 10 serial, Nat.toDigits 10 refresh,
          Nat.toDigits 10 retry, Nat.toDigits 10 expire, Nat.toDigits 10 minttl] := by
  simp [dnsRecordFromRR, fmtD_data, List.intercalate, List.intersperse]

/-- C6, refuted as stated: the SOA record of `example.com.` whose mailbox
`host\ master.example.com.` has a space in its first label (written with the
escape of the presentation format) gets a value that splits on single spaces
into eight pieces, not into the seven fields. -/
theorem soa_split_counterexample :
    ((dnsRecordFromRR TypeToString (.SOA ⟨"example.com.", 6, 1, 3600, 0⟩ "ns1.example.com."
        "host\\ master.example.com." 2024010101 7200 3600 1209600 300)).Value.data.splitOn ' ')
      = ["ns1.example.com.".data, "host\\".data, "master.example.com.".data, "2024010101".data,
          "7200".data, "3600".data, "1209600".data, "300".data]
    ∧ ((dnsRecordFromRR TypeToString (.SOA ⟨"example.com.", 6, 1, 3600, 0⟩ "ns1.example.com."
        "host\\ master.example.com." 2024010101 7200 3600 1209600 300)).Value.data.splitOn ' ')
      ≠ ["ns1.example.com.".data, "host\\ master.example.com.".data, Nat.toDigits 10 2024010101,
          Nat.toDigits 10 7200, Nat.toDigits 10 3600, Nat.toDigits 10 1209600,
          Nat.toDigits 10 300] := by
  constructor <;> decide

/-- C6, amended: the value of an SOA record is its seven fields ns, mbox, serial,
refresh, retry, expire, minimum-ttl in this order (the numbers in decimal) with
one space between neighbours; when neither ns nor mbox contains a space,
splitting the value on single spaces yields exactly these seven fields. -/
theorem soa_value_seven_fields (tts : List (Nat × String)) (h : RR_Header) (ns mbox : String)
    (serial refresh retry expire minttl : Nat)
    (hns : ' ' ∉ ns.data) (hmbox : ' ' ∉ mbox.data) :
    (dnsRecordFromRR tts (.SOA h ns mbox serial refresh retry expire minttl)).Value.data
      = [' '].intercalate [ns.data, mbox.data, Nat.toDigits 10 serial, Nat.toDigits 10 refresh,
          Nat.toDigits 10 retry, Nat.toDigits 10 expire, Nat.toDigits 10 minttl]
    ∧ (dnsRecordFromRR tts (.SOA h ns mbox serial refresh retry expire minttl)).Value.data.splitOn
        ' '
      = [ns.data, mbox.data, Nat.toDigits 10 serial, Nat.toDigits 10 refresh,
          Nat.toDigits 10 retry, Nat.toDigits 10 expire, Nat.toDigits 10 minttl] := by
  refine ⟨soa_value_data _ _ _ _ _ _ _ _ _, ?_⟩
  rw [soa_value_data]
  apply List.splitOn_intercalate
  · intro l hl
    simp only [List.mem_cons, List.mem_singleton, List.not_mem_nil, or_false] at hl
    rcases hl with rfl | rfl | rfl | rfl | rfl | rfl | rfl
    · exact hns
    · exact hmbox
    all_goals exact space_not_mem_toDigits _
  · simp

/-- C6 amended, at the SOA record of `example.com.` with serial 2024010101. -/
theorem soa_value_seven_fields_witness :
    (dnsRecordFromRR TypeToString (.SOA ⟨"example.com.", 6, 1, 3600, 0⟩ "ns1.example.com."
        "hostmaster.example.com." 2024010101 7200 3600 1209600 300)).Value.data.splitOn ' '
      = ["ns1.example.com.".data, "hostmaster.example.com.".data, Nat.toDigits 10 2024010101,
          Nat.toDigits 10 7200, Nat.toDigits 10 3600, Nat.toDigits 10 1209600,
          Nat.toDigits 10 300] :=
  (soa_value_seven_fields TypeToString ⟨"example.com.", 6, 1, 3600, 0⟩ "ns1.example.com."
    "hostmaster.example.com." 2024010101 7200 3600 1209600 300 (by decide) (by decide)).2

/-- C10, refuted as stated: a record of the private-use type 65280, which the
library table does not list, gets the empty string as its type, not a name of
the wire type (its own presentation text calls the type `TYPE65280`). -/
theorem type_name_counterexample :
    TypeToString.lookup 65280 = none
    ∧ (dnsRecordFromRR TypeToString (.other ⟨"example.com.", 65280, 1, 300, 4⟩
        "example.com.\t300\tCLASS1\tTYPE65280\t\\# 4 0a000001")).Type_ = "" := by
  constructor <;> decide

/-- C10, amended: `dnsRecordFromRR` is total and returns, for every raw record,
a record whose owner name is the name of the header and whose type is the name
the table `TypeToString` has for the type code of the header, or the empty
string when the table has no entry for that code; for a record outside the nine
named types the value is its presentation-format rendering, verbatim. -/
theorem dnsRecordFromRR_total_with_fallback (tts : List (Nat × String)) (rr : RR) :
    (∃ record, dnsRecordFromRR tts rr = record)
    ∧ (dnsRecordFromRR tts rr).Name = rr.Header.Name
    ∧ (∀ name, tts.lookup rr.Header.Rrtype = some name → (dnsRecordFromRR tts rr).Type_ = name)
    ∧ (tts.lookup rr.Header.Rrtype = none → (dnsRecordFromRR tts rr).Type_ = "")
    ∧ (∀ hdr text, rr = .other hdr text → (dnsRecordFromRR tts rr).Value = text) := by
  have htype : (dnsRecordFromRR tts rr).Type_ = mapIndex tts rr.Header.Rrtype := by
    cases rr <;> rfl
  refine ⟨⟨_, rfl⟩, ?_, ?_, ?_, ?_⟩
  · cases rr <;> rfl
  · intro name hname
    rw [htype, mapIndex, hname]; rfl
  · intro hnone
    rw [htype, mapIndex, hnone]; rfl
  · rintro hdr text rfl
    rfl

/-- C10 amended, at a record of type 65 (HTTPS), which is outside the nine named
types and in the table. -/
theorem dnsRecordFromRR_total_with_fallback_witness :
    TypeToString.lookup 65 = some "HTTPS"
    ∧ (dnsRecordFromRR TypeToString (.other ⟨"example.com.", 65, 1, 300, 3⟩
        "example.com.\t300\tIN\tHTTPS\t1 . alpn=h2")).Type_ = "HTTPS"
    ∧ (dnsRecordFromRR TypeToString (.other ⟨"example.com.", 65, 1, 300, 3⟩
        "example.com.\t300\tIN\tHTTPS\t1 . alpn=h2")).Value
        = "example.com.\t300\tIN\tHTTPS\t1 . alpn=h2" :=
  ⟨by decide,
   (dnsRecordFromRR_total_with_fallback TypeToString (.other ⟨"example.com.", 65, 1, 300, 3⟩
      "example.com.\t300\tIN\tHTTPS\t1 . alpn=h2")).2.2.1 "HTTPS" (by decide),
   (dnsRecordFromRR_total_with_fallback TypeToString (.other ⟨"example.com.", 65, 1, 300, 3⟩
      "example.com.\t300\tIN\tHTTPS\t1 . alpn=h2")).2.2.2.2 _ _ rfl⟩

/-! ## AAAA records (C7) -/

theorem zeroRunEnd_fuel (ip : IP) (n m j : Nat) (hn : 16 ≤ j + 2 * n) (hm : 16 ≤ j + 2 * m) :
    zeroRunEnd ip n j = zeroRunEnd ip m j := by
  induction n generalizing m j with
  | zero =>
    cases m with
    | zero => rfl
    | succ m =>
      have : ¬ j < 16 := by omega
      simp [zeroRunEnd, this]
  | succ n ih =>
    cases m with
    | zero =>
      have : ¬ j < 16 := by omega
      simp [zeroRunEnd, this]
    | succ m =>
      simp only [zeroRunEnd]
      split
      · exact ih m (j + 2) (by omega) (by omega)
      · rfl

theorem zeroRunEnd_ge (ip : IP) (n j : Nat) : j ≤ zeroRunEnd ip n j := by
  induction n generalizing j with
  | zero => simp [zeroRunEnd]
  | succ n ih =>
    simp only [zeroRunEnd]
    split
    · exact Nat.le_trans (by omega) (ih (j + 2))
    · exact Nat.le_refl _

theorem longestZeroRun_fuel (ip : IP) (n m i : Nat) (e0 e1 : Int)
    (hn : 16 ≤ i + 2 * n) (hm : 16 ≤ i + 2 * m) :
    longestZeroRun ip n i e0 e1 = longestZeroRun ip m i e0 e1 := by
  induction n generalizing m i e0 e1 with
  | zero =>
    cases m with
    | zero => rfl
    | succ m =>
      have : ¬ i < 16 := by omega
      simp [longestZeroRun, this]
  | succ n ih =>
    cases m with
    | zero =>
      have : ¬ i < 16 := by omega
      simp [longestZeroRun, this]
    | succ m =>
      simp only [longestZeroRun]
      split
      · split
        · have := zeroRunEnd_ge ip 8 i
          exact ih m _ _ _ (by omega) (by omega)
        · exact ih m _ _ _ (by omega) (by omega)
      · rfl

theorem longestZeroRun_ordered (ip : IP) (n i : Nat) (e0 e1 : Int) (h : e0 < 0 ∨ e0 < e1) :
    (longestZeroRun ip n i e0 e1).1 < 0
      ∨ (longestZeroRun ip n i e0 e1).1 < (longestZeroRun ip n i e0 e1).2 := by
  induction n generalizing i e0 e1 with
  | zero => simpa [longestZeroRun] using h
  | succ n ih =>
    simp only [longestZeroRun]
    split
    · split
      · rename_i hj
        exact ih _ _ _ (Or.inr (by omega))
      · exact ih _ _ _ h
    · exact h

theorem writeGroups_fuel (ip : IP) (e0 e1 : Int) (h : e0 < 0 ∨ e0 < e1) (n m i : Nat)
    (b : String) (hn : 16 ≤ i + 2 * n) (hm : 16 ≤ i + 2 * m) :
    writeGroups ip e0 e1 n i b = writeGroups ip e0 e1 m i b := by
  induction n generalizing m i b with
  | zero =>
    cases m with
    | zero => rfl
    | succ m =>
      have : ¬ i < 16 := by omega
      simp [writeGroups, this]
  | succ n ih =>
    cases m with
    | zero =>
      have : ¬ i < 16 := by omega
      simp [writeGroups, this]
    | succ m =>
      simp only [writeGroups]
      split
      · split
        · rename_i hi he
          split
          · rfl
          · exact ih m _ _ (by omega) (by omega)
        · exact ih m _ _ (by omega) (by omega)
      · rfl


theorem hexDigit_mod_ne_dot (v : Nat) : hexDigit (v % 16) ≠ '.' := by
  have h : v % 16 < 16 := Nat.mod_lt _ (by decide)
  generalize v % 16 = k at h
  interval_cases k <;> decide

theorem appendHex_data (dst : String) (i : Nat) :
    ∃ t : List Char, (appendHex dst i).data = dst.data ++ t ∧ '.' ∉ t := by
  unfold appendHex
  split
  · exact ⟨['0'], by simp, by decide⟩
  · have key : ∀ (js : List Nat) (d : String),
        ∃ t : List Char, (js.foldl (fun d j =>
            let v := i >>> (j * 4); if v > 0 then d.push (hexDigit (v % 16)) else d) d).data
          = d.data ++ t ∧ '.' ∉ t := by
      intro js
      induction js with
      | nil => intro d; exact ⟨[], by simp, by simp⟩
      | cons j js ih =>
        intro d
        simp only [List.foldl_cons]
        split
        · obtain ⟨t, ht, hdot⟩ := ih (d.push (hexDigit (i >>> (j * 4) % 16)))
          refine ⟨hexDigit (i >>> (j * 4) % 16) :: t, by simp [ht], ?_⟩
          simp only [List.mem_cons, not_or]
          exact ⟨(hexDigit_mod_ne_dot _).symm, hdot⟩
        · exact ih d
    exact key _ dst

theorem writeGroups_data (ip : IP) (e0 e1 : Int) (fuel i : Nat) (b : String) :
    ∃ t : List Char, (writeGroups ip e0 e1 fuel i b).data = b.data ++ t ∧ '.' ∉ t := by
  induction fuel generalizing i b with
  | zero => exact ⟨[], by simp [writeGroups], by simp⟩
  | succ fuel ih =>
    unfold writeGroups
    split
    · split
      · simp only []
        split
        · exact ⟨"::".data, by simp, by decide⟩
        · obtain ⟨t1, h1, d1⟩ := appendHex_data (b ++ "::") (group ip e1.toNat)
          obtain ⟨t2, h2, d2⟩ := ih (e1.toNat + 2) (appendHex (b ++ "::") (group ip e1.toNat))
          refine ⟨"::".data ++ t1 ++ t2, by simp [h2, h1], ?_⟩
          simp only [List.mem_append, not_or]
          exact ⟨⟨by decide, d1⟩, d2⟩
      · simp only []
        obtain ⟨t1, h1, d1⟩ := appendHex_data (if i > 0 then b ++ ":" else b) (group ip i)
        obtain ⟨t2, h2, d2⟩ :=
          ih (i + 2) (appendHex (if i > 0 then b ++ ":" else b) (group ip i))
        by_cases hi : i > 0
        · simp only [hi, if_true] at h1 h2
          refine ⟨":".data ++ t1 ++ t2, by simp [hi, h2, h1], ?_⟩
          simp only [List.mem_append, not_or]
          exact ⟨⟨by decide, d1⟩, d2⟩
        · simp only [hi, if_false] at h1 h2
          refine ⟨t1 ++ t2, by simp [hi, h2, h1], ?_⟩
          simp only [List.mem_append, not_or]
          exact ⟨d1, d2⟩
    · exact ⟨[], by simp, by simp⟩

theorem writeGroups_colon_of_mem (ip : IP) (e0 e1 : Int) (fuel i : Nat) (b : String)
    (h : ':' ∈ b.data) : ':' ∈ (writeGroups ip e0 e1 fuel i b).data := by
  obtain ⟨t, ht, _⟩ := writeGroups_data ip e0 e1 fuel i b
  rw [ht]; exact List.mem_append_left _ h

theorem appendHex_colon_of_mem (b : String) (v : Nat) (h : ':' ∈ b.data) :
    ':' ∈ (appendHex b v).data := by
  obtain ⟨t, ht, _⟩ := appendHex_data b v
  rw [ht]; exact List.mem_append_left _ h

theorem writeGroups_colon_later (ip : IP) (e0 e1 : Int) (fuel i : Nat) (b : String)
    (hi : 0 < i) (hlt : i < 16) : ':' ∈ (writeGroups ip e0 e1 (fuel + 1) i b).data := by
  unfold writeGroups
  rw [if_pos hlt]
  split
  · simp only []
    split
    · simp
    · exact writeGroups_colon_of_mem _ _ _ _ _ _ (appendHex_colon_of_mem _ _ (by simp))
  · simp only [hi, if_true]
    exact writeGroups_colon_of_mem _ _ _ _ _ _ (appendHex_colon_of_mem _ _ (by simp))

theorem writeGroups_colon_first (ip : IP) (e0 e1 : Int) (fuel : Nat) (b : String) :
    ':' ∈ (writeGroups ip e0 e1 (fuel + 2) 0 b).data := by
  unfold writeGroups
  rw [if_pos (by decide)]
  split
  · simp only []
    split
    · simp
    · exact writeGroups_colon_of_mem _ _ _ _ _ _ (appendHex_colon_of_mem _ _ (by simp))
  · exact writeGroups_colon_later _ _ _ _ _ _ (by decide) (by decide)

theorem to4_none_of_not_mapped (a : IP) (hlen : a.length = 16)
    (hmapped : a.take 12 ≠ [0, 0, 0, 0, 0, 0, 0, 0, 0, 0, 255, 255]) : To4 a = none := by
  match a, hlen with
  | [b0, b1, b2, b3, b4, b5, b6, b7, b8, b9, b10, b11, b12, b13, b14, b15], _ =>
    unfold To4
    rw [if_neg (by simp)]
    rw [if_neg]
    rintro ⟨-, hz, h10, h11⟩
    apply hmapped
    simp [isZeros] at hz h10 h11
    simp [List.take, Fin.ext_iff, hz, h10, h11]
    rfl

theorem hexDigit_eq_digitChar (k : Nat) (h : k < 16) : hexDigit k = Nat.digitChar k := by
  interval_cases k <;> rfl

theorem toDigits16 (g : Nat) (hg : g < 65536) :
    Nat.toDigits 16 g
      = (if g / 4096 = 0 then [] else [Nat.digitChar (g / 4096 % 16)])
        ++ (if g / 256 = 0 then [] else [Nat.digitChar (g / 256 % 16)])
        ++ (if g / 16 = 0 then [] else [Nat.digitChar (g / 16 % 16)])
        ++ [Nat.digitChar (g % 16)] := by
  have q2 : g / 16 / 16 = g / 256 := by omega
  have q3 : g / 256 / 16 = g / 4096 := by omega
  have q4 : g / 4096 / 16 = 0 := by omega
  by_cases c1 : g / 16 = 0
  · have c2 : g / 256 = 0 := by omega
    have c3 : g / 4096 = 0 := by omega
    simp [Nat.toDigits, Nat.toDigitsCore, c1, c2, c3]
  · by_cases c2 : g / 256 = 0
    · have c3 : g / 4096 = 0 := by omega
      obtain ⟨f, hf⟩ : ∃ f, g = f + 1 := ⟨g - 1, by omega⟩
      have hf2 : g + 1 = f + 2 := by omega
      unfold Nat.toDigits
      rw [hf2]
      simp [Nat.toDigitsCore, c1, c2, c3, q2]
    · by_cases c3 : g / 4096 = 0
      · obtain ⟨f, hf⟩ : ∃ f, g + 1 = f + 3 := ⟨g - 2, by omega⟩
        unfold Nat.toDigits
        rw [hf]
        simp [Nat.toDigitsCore, c1, c2, c3, q2, q3]
      · obtain ⟨f, hf⟩ : ∃ f, g + 1 = f + 4 := ⟨g - 3, by omega⟩
        unfold Nat.toDigits
        rw [hf]
        simp [Nat.toDigitsCore, c1, c2, c3, q2, q3, q4]

theorem appendHex_eq (dst : String) (g : Nat) (hg : g < 65536) :
    appendHex dst g = dst ++ hex16 g := by
  apply String.ext
  by_cases h0 : g = 0
  · subst h0; rfl
  · have d1 := hexDigit_eq_digitChar (g % 16) (Nat.mod_lt _ (by decide))
    have d2 := hexDigit_eq_digitChar (g / 16 % 16) (Nat.mod_lt _ (by decide))
    have d3 := hexDigit_eq_digitChar (g / 256 % 16) (Nat.mod_lt _ (by decide))
    have d4 := hexDigit_eq_digitChar (g / 4096 % 16) (Nat.mod_lt _ (by decide))
    have e7 : g / 268435456 = 0 := by omega
    have e6 : g / 16777216 = 0 := by omega
    have e5 : g / 1048576 = 0 := by omega
    have e4 : g / 65536 = 0 := by omega
    have p0 : 0 < g := by omega
    simp only [appendHex, h0, if_false, hex16, toDigits16 g hg, List.foldl_cons, List.foldl_nil,
      Nat.shiftRight_eq_div_pow, String.data_append]
    norm_num [e7, e6, e5, e4, d1, d2, d3, d4, p0]
    by_cases c3 : g / 4096 = 0 <;> by_cases c2 : g / 256 = 0 <;> by_cases c1 : g / 16 = 0 <;>
      simp [c1, c2, c3, String.push, Nat.pos_iff_ne_zero]

theorem pair_zero (b c : Byte) : (b.val = 0 ∧ c.val = 0) ↔ b.val * 256 + c.val = 0 := by omega

theorem appendHex_pair (dst : String) (b c : Byte) :
    appendHex dst (b.val * 256 + c.val) = dst ++ hex16 (b.val * 256 + c.val) :=
  appendHex_eq dst _ (by omega)


theorem appendHex_zero (dst : String) : appendHex dst 0 = dst ++ hex16 0 := rfl

theorem zeroRunEnd_congr (a c : IP)
    (h : ∀ k, ((a.getD (2 * k) 0).val = 0 ∧ (a.getD (2 * k + 1) 0).val = 0)
      ↔ ((c.getD (2 * k) 0).val = 0 ∧ (c.getD (2 * k + 1) 0).val = 0)) :
    ∀ fuel k, zeroRunEnd a fuel (2 * k) = zeroRunEnd c fuel (2 * k) := by
  intro fuel
  induction fuel with
  | zero => intro k; rfl
  | succ fuel ih =>
    intro k
    have hk := h k
    have ihk := ih (k + 1)
    have e : 2 * (k + 1) = 2 * k + 2 := by ring
    rw [e] at ihk
    simp only [zeroRunEnd]
    by_cases hc : (a.getD (2 * k) 0).val = 0 ∧ (a.getD (2 * k + 1) 0).val = 0
    · have hc2 := hk.1 hc
      by_cases hlt : 2 * k < 16
      · rw [if_pos ⟨hlt, hc⟩, if_pos ⟨hlt, hc2⟩, ihk]
      · rw [if_neg (fun x => hlt x.1), if_neg (fun x => hlt x.1)]
    · have hc2 : ¬ ((c.getD (2 * k) 0).val = 0 ∧ (c.getD (2 * k + 1) 0).val = 0) :=
        fun x => hc (hk.2 x)
      rw [if_neg (fun x => hc x.2), if_neg (fun x => hc2 x.2)]

theorem zeroRunEnd_even (a : IP) : ∀ fuel k, ∃ m, zeroRunEnd a fuel (2 * k) = 2 * m := by
  intro fuel
  induction fuel with
  | zero => intro k; exact ⟨k, rfl⟩
  | succ fuel ih =>
    intro k
    simp only [zeroRunEnd]
    split
    · have e : 2 * k + 2 = 2 * (k + 1) := by ring
      rw [e]; exact ih (k + 1)
    · exact ⟨k, rfl⟩

theorem longestZeroRun_congr (a c : IP)
    (h : ∀ k, ((a.getD (2 * k) 0).val = 0 ∧ (a.getD (2 * k + 1) 0).val = 0)
      ↔ ((c.getD (2 * k) 0).val = 0 ∧ (c.getD (2 * k + 1) 0).val = 0)) :
    ∀ fuel k e0 e1, longestZeroRun a fuel (2 * k) e0 e1 = longestZeroRun c fuel (2 * k) e0 e1 := by
  intro fuel
  induction fuel with
  | zero => intro k e0 e1; rfl
  | succ fuel ih =>
    intro k e0 e1
    obtain ⟨m, hm⟩ := zeroRunEnd_even a 8 k
    have hj := zeroRunEnd_congr a c h 8 k
    have e1' : 2 * m + 2 = 2 * (m + 1) := by ring
    have e2' : 2 * k + 2 = 2 * (k + 1) := by ring
    simp only [longestZeroRun, ← hj, hm, e1', e2', ih]

theorem runLen_canon (gs : List Nat) (s : Nat) :
    runLen (canonGroups (gs.map (fun g => g == 0))) s = runLen gs s := by
  unfold runLen canonGroups
  rw [List.map_map, ← List.map_drop, List.takeWhile_map, List.length_map]
  congr 2
  funext g
  by_cases hg : g = 0 <;> simp [hg]

theorem zeroRun_canon (gs : List Nat) :
    zeroRun (canonGroups (gs.map (fun g => g == 0))) = zeroRun gs := by
  have hl : (canonGroups (gs.map (fun g => g == 0))).length = gs.length := by
    simp [canonGroups]
  simp only [zeroRun, hl, runLen_canon]


theorem tests_canon (b0 b1 b2 b3 b4 b5 b6 b7 b8 b9 b10 b11 b12 b13 b14 b15 : Byte) (k : Nat) :
    (([b0, b1, b2, b3, b4, b5, b6, b7, b8, b9, b10, b11, b12, b13, b14, b15].getD (2 * k) 0).val = 0
      ∧ ([b0, b1, b2, b3, b4, b5, b6, b7, b8, b9, b10, b11, b12, b13, b14, b15].getD
          (2 * k + 1) 0).val = 0)
    ↔ (((canonIP ((groupsOf [b0, b1, b2, b3, b4, b5, b6, b7, b8, b9, b10, b11, b12, b13, b14,
          b15]).map (fun g => g == 0))).getD (2 * k) 0).val = 0
      ∧ ((canonIP ((groupsOf [b0, b1, b2, b3, b4, b5, b6, b7, b8, b9, b10, b11, b12, b13, b14,
          b15]).map (fun g => g == 0))).getD (2 * k + 1) 0).val = 0) := by
  by_cases hk : k < 8
  · interval_cases k <;> simp [canonIP, groupsOf] <;> split <;> simp_all
  · have ha : ∀ j, 16 ≤ j →
        [b0, b1, b2, b3, b4, b5, b6, b7, b8, b9, b10, b11, b12, b13, b14, b15].getD j 0 = 0 :=
      fun j hj => List.getD_eq_default _ _ (by simpa using hj)
    have hc : ∀ j, 16 ≤ j →
        (canonIP ((groupsOf [b0, b1, b2, b3, b4, b5, b6, b7, b8, b9, b10, b11, b12, b13, b14,
          b15]).map (fun g => g == 0))).getD j 0 = 0 :=
      fun j hj => List.getD_eq_default _ _ (by simpa [canonIP, groupsOf] using hj)
    rw [ha _ (by omega), ha _ (by omega), hc _ (by omega), hc _ (by omega)]


theorem adjust_run_canonical (z0 z1 z2 z3 z4 z5 z6 z7 : Bool) :
    (if (longestZeroRun (canonIP [z0, z1, z2, z3, z4, z5, z6, z7]) 9 0 (-1) (-1)).2
          - (longestZeroRun (canonIP [z0, z1, z2, z3, z4, z5, z6, z7]) 9 0 (-1) (-1)).1 ≤ 2
        then ((-1 : Int), (-1 : Int))
        else longestZeroRun (canonIP [z0, z1, z2, z3, z4, z5, z6, z7]) 9 0 (-1) (-1))
      = encRun (zeroRun (canonGroups [z0, z1, z2, z3, z4, z5, z6, z7]))
    ∧ ((zeroRun (canonGroups [z0, z1, z2, z3, z4, z5, z6, z7])).2 = 0
      ∨ (2 ≤ (zeroRun (canonGroups [z0, z1, z2, z3, z4, z5, z6, z7])).2
        ∧ (zeroRun (canonGroups [z0, z1, z2, z3, z4, z5, z6, z7])).1
            + (zeroRun (canonGroups [z0, z1, z2, z3, z4, z5, z6, z7])).2 ≤ 8)) := by
  cases z0 <;> cases z1 <;> cases z2 <;> cases z3 <;> cases z4 <;> cases z5 <;> cases z6 <;>
    cases z7 <;> decide

set_option maxHeartbeats 4000000 in
theorem writeGroups_colonForm (b0 b1 b2 b3 b4 b5 b6 b7 b8 b9 b10 b11 b12 b13 b14 b15 : Byte)
    (s l : Nat) (h : l = 0 ∨ (2 ≤ l ∧ s + l ≤ 8)) :
    writeGroups [b0, b1, b2, b3, b4, b5, b6, b7, b8, b9, b10, b11, b12, b13, b14, b15]
        (encRun (s, l)).1 (encRun (s, l)).2 9 0 ""
      = if l = 0 then
          ":".intercalate ((groupsOf [b0, b1, b2, b3, b4, b5, b6, b7, b8, b9, b10, b11, b12, b13,
            b14, b15]).map hex16)
        else
          ":".intercalate (((groupsOf [b0, b1, b2, b3, b4, b5, b6, b7, b8, b9, b10, b11, b12, b13,
              b14, b15]).take s).map hex16) ++ "::"
            ++ ":".intercalate (((groupsOf [b0, b1, b2, b3, b4, b5, b6, b7, b8, b9, b10, b11, b12,
              b13, b14, b15]).drop (s + l)).map hex16) := by
  apply String.ext
  rcases h with rfl | ⟨h2, h8⟩
  · simp [encRun, writeGroups, group, appendHex_pair, groupsOf, String.intercalate,
      String.intercalate.go]
  · have hs : s ≤ 6 := by omega
    have hl : l ≤ 8 := by omega
    interval_cases s <;> interval_cases l <;> first
      | omega
      | simp [encRun, writeGroups, group, appendHex_pair, groupsOf, String.intercalate,
          String.intercalate.go]

theorem ipString_colonForm (a : IP) (hlen : a.length = 16) (h4 : To4 a = none) :
    IP.String a = colonForm (groupsOf a) := by
  match a, hlen with
  | [b0, b1, b2, b3, b4, b5, b6, b7, b8, b9, b10, b11, b12, b13, b14, b15], _ =>
    have hcongr := longestZeroRun_congr _ _
      (tests_canon b0 b1 b2 b3 b4 b5 b6 b7 b8 b9 b10 b11 b12 b13 b14 b15) 9 0 (-1) (-1)
    simp only [Nat.mul_zero] at hcongr
    have hz := zeroRun_canon
      (groupsOf [b0, b1, b2, b3, b4, b5, b6, b7, b8, b9, b10, b11, b12, b13, b14, b15])
    obtain ⟨hrun, hbound⟩ := adjust_run_canonical
      (b0.val * 256 + b1.val == 0) (b2.val * 256 + b3.val == 0) (b4.val * 256 + b5.val == 0)
      (b6.val * 256 + b7.val == 0) (b8.val * 256 + b9.val == 0) (b10.val * 256 + b11.val == 0)
      (b12.val * 256 + b13.val == 0) (b14.val * 256 + b15.val == 0)
    have hzs : (groupsOf [b0, b1, b2, b3, b4, b5, b6, b7, b8, b9, b10, b11, b12, b13, b14,
          b15]).map (fun g => g == 0)
        = [b0.val * 256 + b1.val == 0, b2.val * 256 + b3.val == 0, b4.val * 256 + b5.val == 0,
            b6.val * 256 + b7.val == 0, b8.val * 256 + b9.val == 0,
            b10.val * 256 + b11.val == 0, b12.val * 256 + b13.val == 0,
            b14.val * 256 + b15.val == 0] := rfl
    rw [hzs] at hcongr hz
    rw [← hcongr, hz] at hrun
    rw [hz] at hbound
    have hB := writeGroups_colonForm b0 b1 b2 b3 b4 b5 b6 b7 b8 b9 b10 b11 b12 b13 b14 b15
      (zeroRun (groupsOf [b0, b1, b2, b3, b4, b5, b6, b7, b8, b9, b10, b11, b12, b13, b14,
        b15])).1
      (zeroRun (groupsOf [b0, b1, b2, b3, b4, b5, b6, b7, b8, b9, b10, b11, b12, b13, b14,
        b15])).2 hbound
    have hS : IP.String [b0, b1, b2, b3, b4, b5, b6, b7, b8, b9, b10, b11, b12, b13, b14, b15]
        = writeGroups [b0, b1, b2, b3, b4, b5, b6, b7, b8, b9, b10, b11, b12, b13, b14, b15]
            (if (longestZeroRun [b0, b1, b2, b3, b4, b5, b6, b7, b8, b9, b10, b11, b12, b13, b14,
                  b15] 9 0 (-1) (-1)).2
                - (longestZeroRun [b0, b1, b2, b3, b4, b5, b6, b7, b8, b9, b10, b11, b12, b13,
                  b14, b15] 9 0 (-1) (-1)).1 ≤ 2
              then ((-1 : Int), (-1 : Int))
              else longestZeroRun [b0, b1, b2, b3, b4, b5, b6, b7, b8, b9, b10, b11, b12, b13,
                b14, b15] 9 0 (-1) (-1)).1
            (if (longestZeroRun [b0, b1, b2, b3, b4, b5, b6, b7, b8, b9, b10, b11, b12, b13, b14,
                  b15] 9 0 (-1) (-1)).2
                - (longestZeroRun [b0, b1, b2, b3, b4, b5, b6, b7, b8, b9, b10, b11, b12, b13,
                  b14, b15] 9 0 (-1) (-1)).1 ≤ 2
              then ((-1 : Int), (-1 : Int))
              else longestZeroRun [b0, b1, b2, b3, b4, b5, b6, b7, b8, b9, b10, b11, b12, b13,
                b14, b15] 9 0 (-1) (-1)).2 9 0 "" := by
      simp [IP.String, h4]
    rw [hS, hrun]
    exact hB

/-- C7, refuted as stated: the AAAA record of the IPv4-mapped address
`::ffff:1.2.3.4` gets the dotted-quad value `1.2.3.4`, which has no colon. -/
theorem aaaa_mapped_counterexample :
    (dnsRecordFromRR TypeToString (.AAAA ⟨"www.example.com.", 28, 1, 300, 16⟩
        [0, 0, 0, 0, 0, 0, 0, 0, 0, 0, 255, 255, 1, 2, 3, 4])).Value = "1.2.3.4"
    ∧ ':' ∉ (dnsRecordFromRR TypeToString (.AAAA ⟨"www.example.com.", 28, 1, 300, 16⟩
        [0, 0, 0, 0, 0, 0, 0, 0, 0, 0, 255, 255, 1, 2, 3, 4])).Value.data := by
  constructor <;> decide

/-- C7, amended: for every AAAA record carrying a 16-byte address outside the
IPv4-mapped range `::ffff:0:0/96` (its first twelve bytes are not ten zero bytes
followed by `ff ff`), the value is the colon-form rendering of that address: its
eight 16-bit groups in lower-case hexadecimal without leading zeros, separated
by `:`, with the leftmost longest run of at least two zero groups written as
`::`.  It contains `:` and contains no `.`, so it is not a dotted quad. -/
theorem aaaa_value_colon_form (tts : List (Nat × String)) (h : RR_Header) (a : IP)
    (hlen : a.length = 16)
    (hmapped : a.take 12 ≠ [0, 0, 0, 0, 0, 0, 0, 0, 0, 0, 255, 255]) :
    (dnsRecordFromRR tts (.AAAA h a)).Value = colonForm (groupsOf a)
    ∧ ':' ∈ (dnsRecordFromRR tts (.AAAA h a)).Value.data
    ∧ '.' ∉ (dnsRecordFromRR tts (.AAAA h a)).Value.data := by
  have hs : ∃ e : Int × Int,
      (dnsRecordFromRR tts (.AAAA h a)).Value = writeGroups a e.1 e.2 9 0 "" := by
    refine ⟨if (longestZeroRun a 9 0 (-1) (-1)).2 - (longestZeroRun a 9 0 (-1) (-1)).1 ≤ 2
      then ((-1 : Int), (-1 : Int)) else longestZeroRun a 9 0 (-1) (-1), ?_⟩
    simp [dnsRecordFromRR, IP.String, hlen, to4_none_of_not_mapped a hlen hmapped]
  refine ⟨ipString_colonForm a hlen (to4_none_of_not_mapped a hlen hmapped), ?_⟩
  obtain ⟨e, he⟩ := hs
  rw [he]
  constructor
  · exact writeGroups_colon_first _ _ _ 7 ""
  · obtain ⟨t, ht, hdot⟩ := writeGroups_data a e.1 e.2 9 0 ""
    rw [ht]
    simpa using hdot

/-- C7 amended, at the address `2001:db8::1`. -/
theorem aaaa_value_colon_form_witness :
    (dnsRecordFromRR TypeToString (.AAAA ⟨"www.example.com.", 28, 1, 300, 16⟩
        [0x20, 0x01, 0x0d, 0xb8, 0, 0, 0, 0, 0, 0, 0, 0, 0, 0, 0, 1])).Value = "2001:db8::1"
    ∧ ':' ∈ (dnsRecordFromRR TypeToString (.AAAA ⟨"www.example.com.", 28, 1, 300, 16⟩
        [0x20, 0x01, 0x0d, 0xb8, 0, 0, 0, 0, 0, 0, 0, 0, 0, 0, 0, 1])).Value.data
    ∧ '.' ∉ (dnsRecordFromRR TypeToString (.AAAA ⟨"www.example.com.", 28, 1, 300, 16⟩
        [0x20, 0x01, 0x0d, 0xb8, 0, 0, 0, 0, 0, 0, 0, 0, 0, 0, 0, 1])).Value.data :=
  ⟨(aaaa_value_colon_form TypeToString ⟨"www.example.com.", 28, 1, 300, 16⟩
      [0x20, 0x01, 0x0d, 0xb8, 0, 0, 0, 0, 0, 0, 0, 0, 0, 0, 0, 1] (by decide) (by decide)).1.trans
      (by decide),
   (aaaa_value_colon_form TypeToString ⟨"www.example.com.", 28, 1, 300, 16⟩
      [0x20, 0x01, 0x0d, 0xb8, 0, 0, 0, 0, 0, 0, 0, 0, 0, 0, 0, 1] (by decide) (by decide)).2⟩

/-! ## The aggregation loop: auxiliary facts -/

theorem goAppend_nil {α : Type} (s : Slice α) : goAppend s [] = s := by
  cases s <;> simp [goAppend]

theorem goAppend_goAppend {α : Type} (s : Slice α) (xs ys : List α) :
    goAppend (goAppend s xs) ys = goAppend s (xs ++ ys) := by
  cases s <;> cases xs <;> cases ys <;> simp [goAppend]

theorem foldl_goAppend {α β : Type} (f : α → β) (l : List α) (s : Slice β) :
    l.foldl (fun acc x => goAppend acc [f x]) s = goAppend s (l.map f) := by
  induction l generalizing s with
  | nil => simp [goAppend_nil]
  | cons x xs ih => simp [ih, goAppend_goAppend]

theorem transferStep_eq {W : Type} (env : Env W) (domain ns : String) (result : Result) (w : W) :
    ∃ out w1, performAXFR env domain ns w = some (out, w1)
      ∧ transferStep env domain ns result w
          = some ({ result with Results := goAppend result.Results (block out) }, w1) := by
  obtain ⟨addr, _, hp⟩ := performAXFR_eq env domain ns w
  generalize (match env.In (SetAxfr (env.Fqdn domain)) addr w with
    | ((_, some err), w1) => ((none, some err), w1)
    | ((conn, none), w1) => (recvLoop env.TypeToString conn none, w1)) = res at hp
  obtain ⟨⟨records, err⟩, w1⟩ := res
  refine ⟨(records, err), w1, hp, ?_⟩
  cases err with
  | none => simp [transferStep, hp, block]
  | some e => simp [transferStep, hp, block, goAppend_nil]

theorem transferLoop_eq {W : Type} (env : Env W) (domain : String) (nss : List String)
    (result : Result) (w : W) :
    ∃ w1, transferLoop env domain nss result w
        = some ({ result with
            Results := goAppend result.Results (blocks env domain nss w).flatten }, w1)
      ∧ (transferTrace env domain nss w).map Prod.fst = nss := by
  induction nss generalizing result w with
  | nil =>
    exact ⟨w, by simp [transferLoop, blocks, transferTrace, goAppend_nil], by simp [transferTrace]⟩
  | cons ns rest ih =>
    obtain ⟨out, w1, hp, hs⟩ := transferStep_eq env domain ns result w
    obtain ⟨w2, h2, h3⟩ := ih { result with Results := goAppend result.Results (block out) } w1
    refine ⟨w2, ?_, ?_⟩
    · simp [transferLoop, hs, h2, blocks, transferTrace, hp, goAppend_goAppend]
    · simp [transferTrace, hp, h3]

theorem domainStep_eq {W : Type} (env : Env W) (domain : String) (w : W) :
    ∃ w2, ∀ results, domainStep env domain results w
      = some (goAppend results
          (match (env.LookupNS domain w).1.2 with
            | some _ => []
            | none => [entryOf env domain (env.LookupNS domain w).1.1 (env.LookupNS domain w).2]),
          w2) := by
  rcases hl : env.LookupNS domain w with ⟨⟨nss, err⟩, w1⟩
  cases err with
  | some e =>
    exact ⟨w1, fun results => by simp [domainStep, getNameservers, hl, goAppend_nil]⟩
  | none =>
    have htl : (goAppend (none : Slice String) (nss.map NS.Host)).toList = nss.map NS.Host := by
      rw [toList_goAppend]; rfl
    obtain ⟨w2, h2, _⟩ := transferLoop_eq env domain (nss.map NS.Host)
      ⟨domain, goAppend none (nss.map NS.Host), none⟩ w1
    refine ⟨w2, fun results => ?_⟩
    simp [domainStep, getNameservers, hl, foldl_goAppend, htl, h2, entryOf]

theorem toList_goAppend_none {α : Type} (xs : List α) :
    (goAppend (none : Slice α) xs).toList = xs := by
  rw [toList_goAppend]; rfl

theorem domainLoop_eq {W : Type} (env : Env W) (domains : List String) (w : W) :
    ∃ out w1, (∀ results, domainLoop env domains results w = some (goAppend results out, w1))
      ∧ out.map (fun r => (r.Domain, r.Nameservers.toList))
          = (lookupTrace env domains w).filterMap (fun t =>
              match t.2.2 with
              | none => some (t.1, t.2.1.map NS.Host)
              | some _ => none)
      ∧ (lookupTrace env domains w).map Prod.fst = domains
      ∧ (∀ r ∈ out, r.Domain ∈ domains)
      ∧ (∀ r ∈ out, r.Results.toList = [] → r.Results = none) := by
  induction domains generalizing w with
  | nil =>
    exact ⟨[], w, fun results => by simp [domainLoop, goAppend_nil], by simp [lookupTrace],
      by simp [lookupTrace], by simp, by simp⟩
  | cons d rest ih =>
    obtain ⟨w2, hstep⟩ := domainStep_eq env d w
    obtain ⟨out1, w3, hloop, hpairs, hdom, hmem, hnil⟩ := ih w2
    have htrace : lookupTrace env (d :: rest) w
        = (d, (env.LookupNS d w).1) :: lookupTrace env rest w2 := by
      simp [lookupTrace, hstep none]
    rcases hl : env.LookupNS d w with ⟨⟨nss, err⟩, w1⟩
    rw [hl] at hstep htrace
    cases err with
    | some e =>
      refine ⟨out1, w3, fun results => ?_, ?_, ?_, ?_, hnil⟩
      · have := hstep results
        simp only [goAppend_nil] at this
        simp [domainLoop, this, hloop]
      · simp [htrace, hpairs]
      · simp [htrace, hdom]
      · intro r hr
        exact List.mem_cons_of_mem _ (hmem r hr)
    | none =>
      refine ⟨entryOf env d nss w1 :: out1, w3, fun results => ?_, ?_, ?_, ?_, ?_⟩
      · have := hstep results
        simp only at this
        simp [domainLoop, this, hloop, goAppend_goAppend]
      · simp [htrace, hpairs, entryOf, toList_goAppend_none]
      · simp [htrace, hdom]
      · intro r hr
        rcases List.mem_cons.1 hr with rfl | hr
        · simp [entryOf]
        · exact List.mem_cons_of_mem _ (hmem r hr)
      · intro r hr
        rcases List.mem_cons.1 hr with rfl | hr
        · intro h
          simp only [entryOf, toList_goAppend_none] at h
          simp [entryOf, h, goAppend]
        · exact hnil r hr

/-! ## The aggregation loop (C1, C2, C4, C8) -/

/-- C1: for every input sequence of domains and every behaviour of the
resolver, the loop of `main` returns a result sequence whose (domain,
nameservers) pairs are exactly the input domains whose lookup succeeded, in
input order, one entry for every input occurrence, each with the host list the
resolver returned; a domain whose lookup failed has no entry.  The lookups of
the run are one for every input domain, in input order. -/
theorem aggregate_lists_resolved_domains {W : Type} (env : Env W) (domains : List String)
    (w : W) :
    ∃ results w1, aggregate env domains w = some (some results, w1)
      ∧ results.map (fun r => (r.Domain, r.Nameservers.toList))
          = (lookupTrace env domains w).filterMap (fun t =>
              match t.2.2 with
              | none => some (t.1, t.2.1.map NS.Host)
              | some _ => none)
      ∧ (lookupTrace env domains w).map Prod.fst = domains := by
  obtain ⟨out, w1, hloop, hpairs, hdom, _, _⟩ := domainLoop_eq env domains w
  exact ⟨out, w1, by simp [aggregate, hloop, goAppend], hpairs, hdom⟩

/-- C1 on the example network: the input `example.com`, `bad-domain-xyz`, whose
second lookup fails, yields exactly one entry, for `example.com`. -/
theorem aggregate_lists_resolved_domains_witness :
    ∃ results w1, aggregate exampleEnv ["example.com", "bad-domain-xyz"] () = some (some results, w1)
      ∧ results.map (fun r => (r.Domain, r.Nameservers.toList))
          = [("example.com", ["ns1.example.com.", "ns2.example.com."])] := by
  obtain ⟨results, w1, h1, h2, _⟩ :=
    aggregate_lists_resolved_domains exampleEnv ["example.com", "bad-domain-xyz"] ()
  exact ⟨results, w1, h1, h2.trans (by decide)⟩

theorem transferBlock_congr {W : Type} (env : Env W) (domain ns : String) (w1 w2 : W)
    (hst : ∀ m addr v1 v2, (env.In m addr v1).1 = (env.In m addr v2).1) :
    transferBlock env domain ns w1 = transferBlock env domain ns w2 := by
  unfold transferBlock performAXFR
  cases connTarget ns with
  | none => rfl
  | some addr =>
    have h := hst (SetAxfr (env.Fqdn domain)) addr w1 w2
    rcases h1 : env.In (SetAxfr (env.Fqdn domain)) addr w1 with ⟨⟨c1, e1⟩, v1⟩
    rcases h2 : env.In (SetAxfr (env.Fqdn domain)) addr w2 with ⟨⟨c2, e2⟩, v2⟩
    rw [h1, h2] at h
    simp only [Prod.mk.injEq] at h
    obtain ⟨rfl, rfl⟩ := h
    cases e1 <;> simp [h1, h2]

theorem blocks_of_stateless {W : Type} (env : Env W) (domain : String) (nss : List String)
    (w w0 : W) (hst : ∀ m addr v1 v2, (env.In m addr v1).1 = (env.In m addr v2).1) :
    blocks env domain nss w = nss.map (fun ns => transferBlock env domain ns w0) := by
  induction nss generalizing w with
  | nil => simp [blocks, transferTrace]
  | cons ns rest ih =>
    obtain ⟨addr, _, hp⟩ := performAXFR_eq env domain ns w
    generalize (match env.In (SetAxfr (env.Fqdn domain)) addr w with
      | ((_, some err), w1) => ((none, some err), w1)
      | ((conn, none), w1) => (recvLoop env.TypeToString conn none, w1)) = res at hp
    have hb : transferBlock env domain ns w0 = block res.1 := by
      rw [transferBlock_congr env domain ns w0 w hst]
      simp [transferBlock, hp]
    have ih1 := ih res.2
    simp only [blocks] at ih1 ⊢
    simp [transferTrace, hp, hb, ih1]

/-- C2: for every resolved domain and every outcome of the transfers to its
nameservers, the loop over the nameservers returns, and the records of the
domain are exactly the concatenation, in nameserver order, of the record lists
of the transfers that succeeded; a failed transfer contributes nothing and every
nameserver is processed, one transfer each, in order.  When the outcome of a
transfer does not depend on the moment it is made, the blocks follow the
nameservers: for the nameserver list `ns (σ 0), ns (σ 1), ...`, any permutation
`σ` of `ns`, the records are the blocks of `ns (σ 0), ns (σ 1), ...` in this
order. -/
theorem records_are_blocks_in_nameserver_order {W : Type} (env : Env W) (domain : String)
    (nameservers : Slice String) (w : W) :
    (∃ result w1,
      transferLoop env domain nameservers.toList ⟨domain, nameservers, none⟩ w
          = some (result, w1)
        ∧ result.Results.toList
            = ((transferTrace env domain nameservers.toList w).map (fun t =>
                match t.2.2 with
                | none => t.2.1.toList
                | some _ => [])).flatten
        ∧ (transferTrace env domain nameservers.toList w).map Prod.fst = nameservers.toList)
    ∧ ((∀ m addr v1 v2, (env.In m addr v1).1 = (env.In m addr v2).1) →
        ∀ (k : Nat) (ns : Fin k → String) (σ : Equiv.Perm (Fin k)),
          nameservers.toList = List.ofFn (fun i => ns (σ i)) →
          ∃ result w1,
            transferLoop env domain nameservers.toList ⟨domain, nameservers, none⟩ w
                = some (result, w1)
              ∧ result.Results.toList
                  = (List.ofFn (fun i => transferBlock env domain (ns (σ i)) w)).flatten) := by
  obtain ⟨w1, hloop, htrace⟩ :=
    transferLoop_eq env domain nameservers.toList ⟨domain, nameservers, none⟩ w
  constructor
  · refine ⟨_, w1, hloop, ?_, htrace⟩
    simp only [toList_goAppend_none, blocks]
    rfl
  · intro hst k ns σ hns
    refine ⟨_, w1, hloop, ?_⟩
    simp only [toList_goAppend_none]
    rw [blocks_of_stateless env domain _ w w hst, hns, List.map_ofFn]
    rfl

/-- C2 on the example network: `ns1` succeeds with the records SOA,
`www.example.com. A 93.184.216.34`, SOA and `ns2` is refused, which gives exactly
the records of `ns1`, also when the resolver lists `ns2` first. -/
theorem records_are_blocks_in_nameserver_order_witness :
    (∃ result w1,
      transferLoop exampleEnv "example.com" ["ns1.example.com.", "ns2.example.com."]
          ⟨"example.com", some ["ns1.example.com.", "ns2.example.com."], none⟩ ()
          = some (result, w1)
        ∧ result.Results.toList
            = [⟨"example.com.", "SOA",
                "ns1.example.com. hostmaster.example.com. 2024010101 7200 3600 1209600 300"⟩,
               ⟨"www.example.com.", "A", "93.184.216.34"⟩,
               ⟨"example.com.", "SOA",
                "ns1.example.com. hostmaster.example.com. 2024010101 7200 3600 1209600 300"⟩])
    ∧ (∃ result w1,
      transferLoop exampleEnv "example.com" ["ns2.example.com.", "ns1.example.com."]
          ⟨"example.com", some ["ns2.example.com.", "ns1.example.com."], none⟩ ()
          = some (result, w1)
        ∧ result.Results.toList
            = [] ++ [⟨"example.com.", "SOA",
                "ns1.example.com. hostmaster.example.com. 2024010101 7200 3600 1209600 300"⟩,
               ⟨"www.example.com.", "A", "93.184.216.34"⟩,
               ⟨"example.com.", "SOA",
                "ns1.example.com. hostmaster.example.com. 2024010101 7200 3600 1209600 300"⟩]) := by
  constructor
  · obtain ⟨result, w1, h1, h2, _⟩ :=
      (records_are_blocks_in_nameserver_order exampleEnv "example.com"
        (some ["ns1.example.com.", "ns2.example.com."]) ()).1
    exact ⟨result, w1, h1, h2.trans (by decide)⟩
  · obtain ⟨result, w1, h1, h2⟩ :=
      (records_are_blocks_in_nameserver_order exampleEnv "example.com"
        (some ["ns2.example.com.", "ns1.example.com."]) ()).2 (fun _ _ _ _ => rfl) 2
        ![("ns1.example.com." : String), "ns2.example.com."] (Equiv.swap 0 1) (by decide)
    exact ⟨result, w1, h1, h2.trans (by decide)⟩

/-- Every entry of the output is written as an object with exactly the fields
`domain`, `nameservers`, `results`, in this order, and the entries without any
record have the nil slice as their `Results`, which is written as `null`. -/
theorem marshalResult_fields {W : Type} (env : Env W) (domains : List String) (w : W) :
    ∃ results w1, aggregate env domains w = some (some results, w1)
      ∧ ∀ r ∈ results,
          (∃ ns rs, marshalResult r
              = .obj [("domain", .str r.Domain), ("nameservers", ns), ("results", rs)])
          ∧ (r.Results.toList = [] → ∃ ns, marshalResult r
              = .obj [("domain", .str r.Domain), ("nameservers", ns), ("results", .null)]) := by
  obtain ⟨out, w1, hloop, -, -, -, hnil⟩ := domainLoop_eq env domains w
  refine ⟨out, w1, by simp [aggregate, hloop, goAppend], ?_⟩
  intro r hr
  refine ⟨⟨_, _, rfl⟩, fun h => ⟨marshalSlice .str r.Nameservers, ?_⟩⟩
  simp only [marshalResult, hnil r hr h]
  rfl

/-- C8, evaluated where it fails: in JSON mode, for the input `example.org`, whose
only transfer fails, the entry is an object with the fields `domain`,
`nameservers`, `results`, and `results` is `null`, not the empty array; the
outer slice of an empty run is written as the empty array. -/
theorem json_results_null_without_records :
    mainJSON exampleEnv ["example.org"] ()
      = some (.arr [
          .obj [("domain", .str "example.org"), ("nameservers", .arr [.str "ns3.example.org."]),
            ("results", .null)]])
    ∧ mainJSON exampleEnv [] () = some (.arr []) := by
  constructor <;> rfl

end RaAxfr
